import Mathlib

/-!
Verification of the agent-orchestration core of the MistralHackathon server
(`main.py`): memory search and team isolation, the bounded tool-calling loop,
the portfolio rule engine, the reminder subsystem (deduplication and display
throttling), transcript persistence, and conversation finalization.

Python `float` quantities (similarity scores, minute counts, timestamps) are
modelled as rationals; Python dicts are modelled as functions into `Option`
or as association lists in insertion order.  External collaborators (the
Mistral completion API, the regex engine, the Qdrant vector ranking) are
parameters of the embedding.
-/

unseal Rat.add Rat.sub Rat.mul Rat.inv Rat.ofScientific

namespace MistralServer

/-! ### String primitives

Kernel-computable models of the Python string operations used by the
source (`lower`, `strip`, `split`, `endswith`, `in`, `replace`), written
as structural recursions over character lists so that concrete witnesses
evaluate. -/

/-- Infix test on character lists: `needle` occurs contiguously in `haystack`.
Models the Python `needle in haystack` test on strings. -/
def listIsInfix (needle : List Char) : List Char → Bool
  | [] => needle.isEmpty
  | c :: rest => needle.isPrefixOf (c :: rest) || listIsInfix needle rest

/-- Python `pat in s` substring containment. -/
def strContains (s pat : String) : Bool :=
  listIsInfix pat.toList s.toList

/-- Python `s.lower()` (ASCII case folding). -/
def strLower (s : String) : String :=
  String.mk (s.toList.map Char.toLower)

/-- Python `s.strip()`: remove leading and trailing whitespace. -/
def strStrip (s : String) : String :=
  String.mk
    (((s.toList.dropWhile Char.isWhitespace).reverse.dropWhile
      Char.isWhitespace).reverse)

/-- Python `s.endswith(suffix)`. -/
def strEndsWith (s suffix : String) : Bool :=
  suffix.toList.reverse.isPrefixOf s.toList.reverse

/-- Python `s[:n]`. -/
def strTake (s : String) (n : Nat) : String :=
  String.mk (s.toList.take n)

/-- Python `s.replace(a, b)` for one-character patterns. -/
def charReplace (s : String) (a b : Char) : String :=
  String.mk (s.toList.map (fun c => if c = a then b else c))

/-- Accumulator step for whitespace splitting. -/
def splitWsAux : List Char → List Char → List String
  | [], acc => if acc.isEmpty then [] else [String.mk acc.reverse]
  | c :: rest, acc =>
    if c.isWhitespace then
      if acc.isEmpty then splitWsAux rest []
      else String.mk acc.reverse :: splitWsAux rest []
    else splitWsAux rest (c :: acc)

/-- Python `s.split()`: split on whitespace runs, dropping empty pieces. -/
def splitWs (s : String) : List String :=
  splitWsAux s.toList []

/-! ### A stable sort

The Python `list.sort` / `sorted` are stable; the output of a stable sort is
uniquely determined by the comparison key, so a stable insertion sort is
an exact model.  `stable_sort_desc` models `sort(key=…, reverse=True)`
and `stable_sort_asc` models `sort(key=…)`. -/

/-- Insert `x` into a descending-by-key list, after all entries whose key
is at least `key x` (which is what keeps the sort stable). -/
def stable_insert_desc {α β : Type} [LinearOrder β] (key : α → β) (x : α) :
    List α → List α
  | [] => [x]
  | y :: ys =>
    if key y < key x then x :: y :: ys
    else y :: stable_insert_desc key x ys

/-- Stable descending sort by `key`. -/
def stable_sort_desc {α β : Type} [LinearOrder β] (key : α → β)
    (l : List α) : List α :=
  l.foldl (fun acc x => stable_insert_desc key x acc) []

/-- Insert `x` into an ascending-by-key list, after all entries whose key
is at most `key x`. -/
def stable_insert_asc {α β : Type} [LinearOrder β] (key : α → β) (x : α) :
    List α → List α
  | [] => [x]
  | y :: ys =>
    if key x < key y then x :: y :: ys
    else y :: stable_insert_asc key x ys

/-- Stable ascending sort by `key`. -/
def stable_sort_asc {α β : Type} [LinearOrder β] (key : α → β)
    (l : List α) : List α :=
  l.foldl (fun acc x => stable_insert_asc key x acc) []

/-- Pointwise update of an optional map, modelling `d[k] = v` on a Python dict. -/
def mapUpd {α : Type} (m : String → Option α) (k : String) (v : α) :
    String → Option α :=
  fun k2 => if k2 = k then some v else m k2

/-- Pointwise removal, modelling `del d[k]` on a Python dict. -/
def mapDel {α : Type} (m : String → Option α) (k : String) :
    String → Option α :=
  fun k2 => if k2 = k then none else m k2

/-- Pointwise update of a total map. -/
def storeUpd {α : Type} (m : String → α) (k : String) (v : α) : String → α :=
  fun k2 => if k2 = k then v else m k2

/-! ## Reminder subsystem (`main.py` 3764-3841)

A reminder dict as consumed by `should_show_reminders` and
`detect_duplicate_reminders`: only `title`, `description` and the
precomputed `minutes_until` field are read by those functions. -/

structure Reminder where
  title : String
  description : String
  minutes_until : ℚ
deriving DecidableEq, Repr

/-- `key = f"{title}_{description}"` over the lower-cased, stripped fields
(`main.py` 3820-3824). -/
def normKey (r : Reminder) : String :=
  strStrip (strLower r.title) ++ "_" ++ strStrip (strLower r.description)

/-- The loop body of `detect_duplicate_reminders` (`main.py` 3819-3839):
`seen` models the `seen_reminders` dict, `unique` the `unique_reminders`
list.  On a key collision the incoming reminder replaces the stored one
exactly when its `minutes_until` is strictly smaller; the Python
`list.remove` deletes the first occurrence equal to the stored value. -/
def detectDupAux : List Reminder → (String → Option Reminder) →
    List Reminder → List Reminder
  | [], _, unique => unique
  | r :: rest, seen, unique =>
    match seen (normKey r) with
    | none => detectDupAux rest (mapUpd seen (normKey r) r) (unique ++ [r])
    | some existing =>
      if r.minutes_until < existing.minutes_until then
        detectDupAux rest (mapUpd seen (normKey r) r)
          ((unique.erase existing) ++ [r])
      else
        detectDupAux rest seen unique

/-- `detect_duplicate_reminders` (`main.py` 3810-3841). -/
def detect_duplicate_reminders (reminders : List Reminder) : List Reminder :=
  match reminders with
  | [] => []
  | r :: rest => detectDupAux (r :: rest) (fun _ => none) []

/-- Per-conversation entry of the `reminder_notifications` dict
(`main.py` 3772-3776): timestamps are rationals (seconds). -/
structure Tracking where
  last_reminder_time : Option ℚ
  reminder_count : Nat
deriving DecidableEq, Repr

/-- `should_show_reminders` (`main.py` 3764-3808).  Returns the decision and
the updated `reminder_notifications` map; `current_time` models
`datetime.now()` and time differences are divided by 60 as in the source. -/
def should_show_reminders (chat_id : String)
    (upcoming_reminders : List Reminder) (current_time : ℚ)
    (reminder_notifications : String → Option Tracking) :
    Bool × (String → Option Tracking) :=
  if upcoming_reminders.isEmpty then (false, reminder_notifications)
  else
    let notifications1 : String → Option Tracking :=
      match reminder_notifications chat_id with
      | none => mapUpd reminder_notifications chat_id ⟨none, 0⟩
      | some _ => reminder_notifications
    let tracking : Tracking := (notifications1 chat_id).getD ⟨none, 0⟩
    if !(upcoming_reminders.filter
        (fun r => decide (r.minutes_until ≤ 30))).isEmpty then
      (true, notifications1)
    else
      match tracking.last_reminder_time with
      | none => (true, mapUpd notifications1 chat_id ⟨some current_time, 1⟩)
      | some last =>
        if (current_time - last) / 60 < 10 then (false, notifications1)
        else if 3 ≤ tracking.reminder_count then (false, notifications1)
        else (true, mapUpd notifications1 chat_id
          ⟨some current_time, tracking.reminder_count + 1⟩)

/-! ## Memory model and search (`main.py` 275-288, 353-359, 730-884, 1157-1223) -/

/-- The `Memory` record (`main.py` 276-287). -/
structure Memory where
  content : String
  user_id : String
  team_id : String
  timestamp : String
  tags : List String
  category : String
  visibility : String
  confidence : ℚ
deriving DecidableEq, Repr

/-- Lower-cased whitespace word split, as in Python `text.lower().split()`. -/
def toWords (s : String) : List String :=
  splitWs (strLower s)

/-- `calculate_similarity` (`main.py` 353-359): token-set Jaccard similarity. -/
def calculate_similarity (text1 text2 : String) : ℚ :=
  let words1 := (toWords text1).dedup
  let words2 := (toWords text2).dedup
  let inter := (words1.filter (fun w => decide (w ∈ words2))).length
  let union := (words1 ++ words2).dedup.length
  if 0 < union then (inter : ℚ) / (union : ℚ) else 0

/-- A search-result dict as built by both search paths
(`main.py` 869-878 and 1205-1214). -/
structure SearchResult where
  memory_id : String
  content : String
  tags : List String
  timestamp : String
  user_id : String
  category : String
  confidence : ℚ
  similarity_score : ℚ
deriving DecidableEq, Repr

/-- `round(x, 3)`.  Python rounds half to even on floats; over ℚ we round
half up — the difference never matters for the properties proved here. -/
def round3 (q : ℚ) : ℚ := (round (q * 1000) : ℤ) / 1000

/-- The in-memory fallback branch of the `search_memories` tool
(`main.py` 1194-1214): filter the `memories` table by team, score each by
Jaccard similarity, sort descending (a stable sort in Python), keep the first
`limit` entries with a strictly positive score. -/
def search_memories_fallback (memories : List (String × Memory))
    (query team_id : String) (limit : Nat) : List SearchResult :=
  let scored :=
    (memories.filter (fun p => decide (p.2.team_id = team_id))).map
      (fun p => (calculate_similarity query p.2.content, p.1, p.2))
  let sorted := stable_sort_desc (fun t => t.1) scored
  ((sorted.take limit).filter (fun t => decide (0 < t.1))).map
    (fun t =>
      { memory_id := t.2.1
        content := t.2.2.content
        tags := t.2.2.tags
        timestamp := t.2.2.timestamp
        user_id := t.2.2.user_id
        category := t.2.2.category
        confidence := t.2.2.confidence
        similarity_score := round3 t.1 })

/-! The Qdrant-backed path.  The vector store itself is external; what the
source controls is the per-team collection naming, the payload written by
`store_memory`, and the rendering of query hits.  The embedding models a
Qdrant server as a named family of point lists and the vector ranking as a
`select` oracle. -/

/-- A stored point: the Qdrant point id (derived from the memory id) plus
the payload written by `QdrantStorage.store_memory` (`main.py` 779-792). -/
structure QPoint where
  pid : String
  memory_id : String
  content : String
  timestamp : String
  tags : List String
  user_id : String
  team_id : String
  category : String
  confidence : ℚ
deriving DecidableEq, Repr

/-- `QdrantStorage._get_collection_name` (`main.py` 730-734). -/
def get_collection_name (team_id : String) : String :=
  "team_memories_" ++ charReplace (charReplace team_id '-' '_') ' ' '_'

/-- The point id derived from the memory id (`main.py` 777 uses
`int(memory_id[:8], 16)`; the hex decoding is irrelevant, so the id is
modelled as the 8-character prefix itself). -/
def point_id_of (memory_id : String) : String := strTake memory_id 8

/-- The payload of `store_memory` (`main.py` 779-792). -/
def payload_of (m : Memory) (memory_id : String) : QPoint :=
  { pid := point_id_of memory_id
    memory_id := memory_id
    content := m.content
    timestamp := m.timestamp
    tags := m.tags
    user_id := m.user_id
    team_id := m.team_id
    category := m.category
    confidence := m.confidence }

/-- The modelled Qdrant server state: the existing collection names and the
points of each collection. -/
structure QdrantState where
  collection_names : List String
  points : String → List QPoint

/-- `QdrantStorage.store_memory` (`main.py` 767-792): ensure that the team
collection exists and upsert the point (a point with the same id is
replaced). -/
def qdrant_store_memory (st : QdrantState) (m : Memory)
    (memory_id team_id : String) : QdrantState :=
  let name := get_collection_name team_id
  let p := payload_of m memory_id
  { collection_names :=
      if name ∈ st.collection_names then st.collection_names
      else st.collection_names ++ [name]
    points := storeUpd st.points name
      ((st.points name).filter (fun q => decide (q.pid ≠ p.pid)) ++ [p]) }

/-- `QdrantStorage.search_memories` (`main.py` 845-884): if the collection
of the team does not exist return `[]`; otherwise render the scored points
returned by the external vector query (`select`, given the query text and
the collection contents).  As in the source the `memory_id` of a result is
the Qdrant point id, and the score is rounded to 3 decimals. -/
def qdrant_search_memories
    (select : String → List QPoint → List (QPoint × ℚ))
    (st : QdrantState) (query team_id : String) : List SearchResult :=
  let name := get_collection_name team_id
  if name ∈ st.collection_names then
    (select query (st.points name)).map (fun pr =>
      { memory_id := pr.1.pid
        content := pr.1.content
        tags := pr.1.tags
        timestamp := pr.1.timestamp
        user_id := pr.1.user_id
        category := pr.1.category
        confidence := pr.1.confidence
        similarity_score := round3 pr.2 })
  else []

/-- The `search_memories` tool (`main.py` 1157-1223): take the Qdrant
results when the storage is available (errors degrade to `[]`), and fall
back to the in-memory table whenever that list is empty. -/
def search_memories_tool (select : String → List QPoint → List (QPoint × ℚ))
    (st : QdrantState) (storage_available : Bool)
    (memories : List (String × Memory)) (query team_id : String)
    (limit : Nat) : List SearchResult :=
  let results :=
    if storage_available then qdrant_search_memories select st query team_id
    else []
  if results.isEmpty then search_memories_fallback memories query team_id limit
  else results

/-- The Qdrant state produced by a sequence of `add_memory` writes
(`main.py` 1123-1138): each write stores the memory into the collection of
its own `team_id`. -/
def qdrant_of_writes (writes : List (String × Memory)) : QdrantState :=
  writes.foldl (fun st w => qdrant_store_memory st w.2 w.1 w.2.team_id)
    ⟨[], fun _ => []⟩

/-! ## Context merge and ranking (`main.py` 2080-2109) -/

/-- Technology keywords recognized by the priority scorer (`main.py` 2101). -/
def tech_keywords : List String :=
  ["flutter", "react", "typescript", "javascript", "python", "java"]

/-- `priority_score` (`main.py` 2092-2106): base similarity plus a category
bonus or malus. -/
def priority_score (r : SearchResult) : ℚ :=
  if r.category = "work" ∨ r.category = "project" ∨ r.category = "code" then
    r.similarity_score + 0.2
  else if r.category = "conversation_summary" ∧
      (tech_keywords.any (fun t => strContains (strLower r.content) t)) = true then
    r.similarity_score + 0.3
  else if r.category = "conversation_summary" then
    r.similarity_score - 0.1
  else r.similarity_score

/-- The merge of the additional search hits into the primary list
(`main.py` 2087-2089): an incoming hit is appended only when no hit with
the same `memory_id` is already present. -/
def merge_memory_results (initial extra : List SearchResult) :
    List SearchResult :=
  extra.foldl (fun acc r =>
    if acc.any (fun x => x.memory_id == r.memory_id) then acc
    else acc ++ [r]) initial

/-- Merge, rank by `priority_score` (stable descending sort, `main.py`
2108) and truncate to the top 5 (`main.py` 2109). -/
def merge_and_rank (initial extra : List SearchResult) : List SearchResult :=
  (stable_sort_desc priority_score (merge_memory_results initial extra)).take 5

/-! ## Rule engine (`main.py` 4176-4236) -/

/-- The trailing-punctuation strip `re.sub(r"[\s\?\.!]+$", "", msg)`
(`main.py` 4192). -/
def strip_trailing_punct (s : String) : String :=
  String.mk ((s.toList.reverse.dropWhile
    (fun c => c.isWhitespace || c = '?' || c = '.' || c = '!')).reverse)

/-- `check_user_portfolio_rules` (`main.py` 4176-4210): evaluate the
per-user `response_patterns` in insertion order, first match wins.  The
external regex engine is the `re_search` oracle; `none` models an invalid
pattern (`re.error`), which is skipped. -/
def check_user_portfolio_rules (user_message : String)
    (response_patterns : List (String × String))
    (re_search : String → String → Option Bool) : Option String :=
  match response_patterns with
  | [] => none
  | (pattern, response) :: rest =>
    if pattern = "ends_with_quoi" then
      if strEndsWith (strLower (strip_trailing_punct user_message)) "quoi" then
        some response
      else check_user_portfolio_rules user_message rest re_search
    else if pattern = "contains_quoi" then
      if strContains (strLower user_message) "quoi" then some response
      else check_user_portfolio_rules user_message rest re_search
    else if pattern = "exact_quoi" then
      if strLower (strStrip user_message) = "quoi" then some response
      else check_user_portfolio_rules user_message rest re_search
    else
      match re_search pattern user_message with
      | some true => some response
      | _ => check_user_portfolio_rules user_message rest re_search

/-- The rule step of `reflective_thinking_process` (`main.py` 4221-4238):
with no portfolio there is no rule check, and a rule only triggers on a
truthy (non-empty) canned response. -/
def reflective_rule_trigger (user_message : String)
    (portfolio : Option (List (String × String)))
    (re_search : String → String → Option Bool) : Option String :=
  match portfolio with
  | none => none
  | some patterns =>
    match check_user_portfolio_rules user_message patterns re_search with
    | some r => if r = "" then none else some r
    | none => none

/-! ## Agent loop (`main.py` 1879-2704) -/

/-- A transcript message of `active_chats[chat_id]`. -/
structure Msg where
  role : String
  content : String
  tool_call_id : String := ""
deriving DecidableEq, Repr

/-- A tool call requested by the model. -/
structure ToolCall where
  call_id : String
  name : String
  arguments : String
deriving DecidableEq, Repr

/-- One model completion: content plus requested tool calls (an empty list
models the falsy Python `tool_calls`). -/
structure MResp where
  content : String
  tool_calls : List ToolCall
deriving Repr

/-- The uniform result envelope of a turn (`{"status": ..., ...}`). -/
inductive ChatOutcome where
  | success (response : String)
  | error (message : String)
deriving DecidableEq, Repr

/-- The error message returned when the iteration cap is exhausted
(`main.py` 2697-2700). -/
def loop_exhausted_message : String :=
  "Le modèle n\x27a pas pu générer de réponse finale après plusieurs tentatives d\x27utilisation d\x27outils."

/-- The tool-result messages appended after one round of tool execution
(`main.py` 2640-2693): one `tool` message per call, sorted by
`tool_call_id` (stable ascending).  Tool-level failures are caught inside
the dispatcher, so each call yields a string output — the `tool_output`
oracle. -/
def tool_messages (tool_output : ToolCall → String) (calls : List ToolCall) :
    List Msg :=
  (stable_sort_asc (fun pr => pr.1)
    (calls.map (fun c => (c.call_id, tool_output c)))).map
    (fun pr => { role := "tool", content := pr.2, tool_call_id := pr.1 })

/-- The farewell keywords of the auto-finalization check (`main.py` 2600). -/
def end_keywords : List String :=
  ["merci", "au revoir", "à bientôt", "fin de conversation", "terminé",
   "c\x27est tout", "c est tout", "bye", "goodbye", "end", "quit", "exit"]

/-- The auto-finalization decision on a final answer (`main.py` 2596-2613):
farewell keyword in the raw utterance, else transcript length ≥ 20
(the ≥ 50 arm is shadowed by the ≥ 20 arm but kept as in the source). -/
def auto_finalize_reason (user_message : String) (history_len : Nat) :
    Option String :=
  if end_keywords.any (fun k => strContains (strLower user_message) k) then
    some "Mots-clés de fin détectés"
  else if 20 ≤ history_len then some "Limite de messages atteinte"
  else if 50 ≤ history_len then some "Conversation très longue"
  else none

/-- The notice appended to the response when auto-finalization succeeds
(`main.py` 2626). -/
def finalize_note (reason : String) : String :=
  "\n\n📝 **Conversation automatiquement finalisée** (" ++ reason ++ ")"

/-- The response returned on a no-tool-call completion (`main.py`
2590-2632): the stripped content, extended by the finalization notice when
auto-finalization triggers (the transcript length counts the just-appended
assistant message) and the finalize call succeeds (`finalize_ok`). -/
def final_answer (user_message : String) (finalize_ok : Bool)
    (t : List Msg) (resp : MResp) : String :=
  let base := strStrip resp.content
  match auto_finalize_reason user_message (t.length + 1) with
  | some reason => if finalize_ok then base ++ finalize_note reason else base
  | none => base

/-- One full round trip of the loop when tool calls were requested: append
the assistant message, then the sorted tool results (`main.py` 2568-2693). -/
def loop_step (complete : List Msg → MResp) (tool_output : ToolCall → String)
    (t : List Msg) : List Msg :=
  let resp := complete t
  (t ++ [{ role := "assistant", content := resp.content }]) ++
    tool_messages tool_output resp.tool_calls

/-- The transcript seen by the model at iteration `i` of the loop. -/
def loop_transcript (complete : List Msg → MResp)
    (tool_output : ToolCall → String) (t : List Msg) : Nat → List Msg
  | 0 => t
  | i + 1 => loop_transcript complete tool_output
      (loop_step complete tool_output t) i

/-- The bounded conversation loop (`main.py` 2555-2700), with explicit fuel.
Returns the outcome, the number of model completions performed, and the
final working transcript. -/
def run_chat_loop (complete : List Msg → MResp)
    (tool_output : ToolCall → String) (user_message : String)
    (finalize_ok : Bool) : List Msg → Nat → ChatOutcome × Nat × List Msg
  | t, 0 => (.error loop_exhausted_message, 0, t)
  | t, fuel + 1 =>
    let resp := complete t
    if resp.tool_calls.isEmpty then
      (.success (final_answer user_message finalize_ok t resp), 1,
        t ++ [{ role := "assistant", content := resp.content }])
    else
      let out := run_chat_loop complete tool_output user_message finalize_ok
        (loop_step complete tool_output t) fuel
      (out.1, out.2.1 + 1, out.2.2)

/-- The loop entry point with the cap of the source, `max_iterations = 20`
(`main.py` 2556-2557). -/
def chat_with_mistral_loop (complete : List Msg → MResp)
    (tool_output : ToolCall → String) (user_message : String)
    (finalize_ok : Bool) (t : List Msg) : ChatOutcome × Nat × List Msg :=
  run_chat_loop complete tool_output user_message finalize_ok t 20

/-- The per-turn state visible to `chat_with_mistral`: outcome, number of
model completions, and the `active_chats` table afterwards. -/
structure TurnResult where
  outcome : ChatOutcome
  model_calls : Nat
  chats : String → Option (List Msg)

/-- The turn pipeline of `chat_with_mistral` around the loop
(`main.py` 1937-2700): the portfolio rule check short-circuits the turn
before any model call (`main.py` 1944-1954, returning without touching
`active_chats`); otherwise the history is created on first turn with the
system message, the augmented utterance is appended, and the bounded loop
runs.  The construction of `system_message` and
`enhanced_user_message` (context retrieval) is passed in, as it involves
only external searches. -/
def chat_with_mistral_turn (complete : List Msg → MResp)
    (tool_output : ToolCall → String)
    (re_search : String → String → Option Bool)
    (portfolio : Option (List (String × String)))
    (user_message system_message enhanced_user_message chat_id : String)
    (finalize_ok : Bool) (chats : String → Option (List Msg)) : TurnResult :=
  match reflective_rule_trigger user_message portfolio re_search with
  | some r => ⟨.success r, 0, chats⟩
  | none =>
    let history0 := match chats chat_id with
      | none => [Msg.mk "system" system_message ""]
      | some h => h
    let history1 := history0 ++ [Msg.mk "user" enhanced_user_message ""]
    let out := chat_with_mistral_loop complete tool_output user_message
      finalize_ok history1
    ⟨out.1, out.2.1, mapUpd chats chat_id out.2.2⟩

/-! ## Durable transcript persistence (`main.py` 1775-1834, 2732-2765) -/

/-- The assistant-message exclusion keywords of
`save_conversation_to_file` (`main.py` 1802-1808), matched against the
lower-cased content. -/
def assistant_exclusion_keywords : List String :=
  ["tu es un assistant", "instructions importantes", "outils disponibles",
   "règles spéciales", "date et heure actuelle", "portfolio utilisateur",
   "mémoire collective", "conversations passées", "attendez confirmation",
   "⚠️ attention", "catégorie:", "date:", "score:", "--- mémoire",
   "📚 mémoires pertinentes", "💬 conversations pertinentes", "🔍 recherche",
   "🛠️ appels d\x27outils", "🔄 itération", "✅ réponse finale"]

/-- The user-message exclusion keywords of `save_conversation_to_file`
(`main.py` 1815-1818), matched case-sensitively. -/
def user_exclusion_keywords : List String :=
  ["📚 MÉMOIRES PERTINENTES", "💬 CONVERSATIONS PERTINENTES", "--- Mémoire",
   "--- Conversation", "Score:", "Catégorie:", "⚠️ ATTENTION:",
   "Utilise ces mémoires", "Utilise ces conversations"]

/-- The message filter of `save_conversation_to_file` (`main.py`
1787-1820): keep only user and assistant messages, and among those drop
enriched or system-looking contents. -/
def visible_messages (history : List Msg) : List Msg :=
  history.filter (fun m =>
    if m.role = "user" then
      !(user_exclusion_keywords.any (fun k => strContains m.content k))
    else if m.role = "assistant" then
      !(assistant_exclusion_keywords.any
        (fun k => strContains (strLower m.content) k))
    else false)

/-- The text written by `save_conversation_to_file` (`main.py` 1786-1827). -/
def save_conversation_text (history : List Msg) : String :=
  (visible_messages history).foldl (fun acc m =>
    acc ++ (if m.role = "user" then "Utilisateur" else "Assistant") ++ ": " ++
      m.content ++ "\n") ""

/-- The per-loop snapshot saved after every round trip (`main.py`
2573-2588): user messages are replaced by the raw utterance. -/
def conversation_for_save (user_message : String) (history : List Msg) :
    List Msg :=
  history.map (fun m =>
    if m.role = "user" then { role := "user", content := user_message }
    else m)

/-- The transcript text rewritten by `end_chat_and_summarize`
(`main.py` 2733-2737, 2762-2765): every message of the history is
rendered, any role other than `user` being labelled `Assistant`. -/
def end_chat_conversation_text (history : List Msg) : String :=
  history.foldl (fun acc m =>
    acc ++ (if m.role = "user" then "Utilisateur" else "Assistant") ++ ": " ++
      m.content ++ "\n") ""

/-! ## Finalization (`main.py` 2706-2804) -/

/-- Result envelope of `end_chat_and_summarize`. -/
inductive FinalizeOutcome where
  | ok (chat_id : String) (summary : String)
  | err (message : String)
deriving DecidableEq, Repr

/-- `end_chat_and_summarize` (`main.py` 2706-2804): token check, active-set
lookup, model availability, then the summary/archive steps — modelled by
`summary?`, `some s` meaning the external summary call and the transcript
write succeeded with summary `s`, in which case the conversation leaves
`active_chats`; on any failure the table is untouched. -/
def end_chat_and_summarize (chat_id : String) (token_valid : Bool)
    (mistral_available : Bool) (summary? : Option String)
    (chats : String → Option (List Msg)) :
    FinalizeOutcome × (String → Option (List Msg)) :=
  if !token_valid then (.err "Token invalide.", chats)
  else
    match chats chat_id with
    | none => (.err "Conversation non trouvée.", chats)
    | some _ =>
      if !mistral_available then
        (.err "Mistral non disponible pour le résumé.", chats)
      else
        match summary? with
        | some summary => (.ok chat_id summary, mapDel chats chat_id)
        | none => (.err "Erreur lors du résumé", chats)

/-! # Theorems -/

/-- C4: for every conversation id and every non-empty candidate reminder
list containing at least one reminder with time-to-due at most 30 minutes,
`should_show_reminders` returns `true`, regardless of the prior tracker
state (last-shown time and shown count). -/
theorem should_show_reminders_urgent_always_shows (chat_id : String)
    (upcoming : List Reminder) (current_time : ℚ)
    (trackers : String → Option Tracking) (hne : upcoming ≠ [])
    (hurg : ∃ r ∈ upcoming, r.minutes_until ≤ 30) :
    (should_show_reminders chat_id upcoming current_time trackers).1 = true := by
  obtain ⟨r, hr, hr30⟩ := hurg
  have h1 : upcoming.isEmpty = false := by
    cases upcoming with
    | nil => exact absurd rfl hne
    | cons a l => rfl
  have h2 :
      (upcoming.filter (fun r => decide (r.minutes_until ≤ 30))).isEmpty
        = false := by
    have hmem : r ∈ upcoming.filter (fun r => decide (r.minutes_until ≤ 30)) :=
      List.mem_filter.2 ⟨hr, by simpa using hr30⟩
    cases hfil : upcoming.filter (fun r => decide (r.minutes_until ≤ 30)) with
    | nil => rw [hfil] at hmem; cases hmem
    | cons a l => rfl
  simp only [should_show_reminders, h1, h2, Bool.false_eq_true, if_false,
    Bool.not_false, if_true]

/-- Witness for C4: an urgent reminder is shown even when the tracker has
already shown 3 reminders moments ago. -/
theorem should_show_reminders_urgent_always_shows_witness :
    (should_show_reminders "conv1" [⟨"call Bob", "", 10⟩] 0
      (fun _ => some ⟨some 0, 3⟩)).1 = true :=
  should_show_reminders_urgent_always_shows "conv1" [⟨"call Bob", "", 10⟩] 0
    (fun _ => some ⟨some 0, 3⟩) (by decide) (by decide)

/-- C10: when `should_show_reminders` answers `true` through the urgent
rule, the tracker map is left unchanged except for the lazy creation of an
initial entry: an existing entry keeps its last-shown time and count, and a
missing entry is created as `⟨none, 0⟩`. -/
theorem should_show_reminders_urgent_frame (chat_id : String)
    (upcoming : List Reminder) (current_time : ℚ)
    (trackers : String → Option Tracking) (hne : upcoming ≠ [])
    (hurg : ∃ r ∈ upcoming, r.minutes_until ≤ 30) :
    (should_show_reminders chat_id upcoming current_time trackers).2
      = match trackers chat_id with
        | none => mapUpd trackers chat_id ⟨none, 0⟩
        | some _ => trackers := by
  obtain ⟨r, hr, hr30⟩ := hurg
  have h1 : upcoming.isEmpty = false := by
    cases upcoming with
    | nil => exact absurd rfl hne
    | cons a l => rfl
  have h2 :
      (upcoming.filter (fun r => decide (r.minutes_until ≤ 30))).isEmpty
        = false := by
    have hmem : r ∈ upcoming.filter (fun r => decide (r.minutes_until ≤ 30)) :=
      List.mem_filter.2 ⟨hr, by simpa using hr30⟩
    cases hfil : upcoming.filter (fun r => decide (r.minutes_until ≤ 30)) with
    | nil => rw [hfil] at hmem; cases hmem
    | cons a l => rfl
  simp only [should_show_reminders, h1, h2, Bool.false_eq_true, if_false,
    Bool.not_false, if_true]

/-- Witness for C10: the urgent display leaves an existing tracker entry
untouched. -/
theorem should_show_reminders_urgent_frame_witness :
    (should_show_reminders "conv1" [⟨"call Bob", "", 10⟩] 99
      (fun _ => some ⟨some 7, 2⟩)).2
      = (fun _ => some (Tracking.mk (some 7) 2)) :=
  should_show_reminders_urgent_frame "conv1" [⟨"call Bob", "", 10⟩] 99
    (fun _ => some ⟨some 7, 2⟩) (by decide) (by decide)

/-- C5: for a conversation whose tracker has already shown a reminder and
whose candidates are all due in more than 30 minutes: a check less than 10
minutes after the last-shown time returns `false` with the tracker
unchanged; a check at least 10 minutes later with shown count below 3
returns `true`, setting the last-shown time to the current time and
incrementing the count; and once the count has reached 3 every such check
returns `false`. -/
theorem should_show_reminders_throttle (chat_id : String)
    (upcoming : List Reminder) (current_time last : ℚ) (count : Nat)
    (trackers : String → Option Tracking)
    (htr : trackers chat_id = some ⟨some last, count⟩) (hne : upcoming ≠ [])
    (hfar : ∀ r ∈ upcoming, 30 < r.minutes_until) :
    ((current_time - last) / 60 < 10 →
        should_show_reminders chat_id upcoming current_time trackers
          = (false, trackers)) ∧
    (10 ≤ (current_time - last) / 60 → count < 3 →
        should_show_reminders chat_id upcoming current_time trackers
          = (true, mapUpd trackers chat_id ⟨some current_time, count + 1⟩)) ∧
    (3 ≤ count →
        (should_show_reminders chat_id upcoming current_time trackers).1
          = false) := by
  have h1 : upcoming.isEmpty = false := by
    cases upcoming with
    | nil => exact absurd rfl hne
    | cons a l => rfl
  have h2 :
      (upcoming.filter (fun r => decide (r.minutes_until ≤ 30))).isEmpty
        = true := by
    have hfil : upcoming.filter (fun r => decide (r.minutes_until ≤ 30))
        = [] := by
      apply List.filter_eq_nil_iff.2
      intro a ha
      simpa using not_le.2 (hfar a ha)
    rw [hfil]; rfl
  refine ⟨?_, ?_, ?_⟩
  · intro hlt
    simp only [should_show_reminders, h1, h2, htr, Bool.false_eq_true,
      if_false, Bool.not_true, Option.getD_some, if_pos hlt]
  · intro hge hcount
    have hnlt : ¬ (current_time - last) / 60 < 10 := not_lt.2 hge
    have hncnt : ¬ 3 ≤ count := not_le.2 hcount
    simp only [should_show_reminders, h1, h2, htr, Bool.false_eq_true,
      if_false, Bool.not_true, Option.getD_some, if_neg hnlt, if_neg hncnt]
  · intro hcnt
    by_cases hlt : (current_time - last) / 60 < 10
    · simp only [should_show_reminders, h1, h2, htr, Bool.false_eq_true,
        if_false, Bool.not_true, Option.getD_some, if_pos hlt]
    · simp only [should_show_reminders, h1, h2, htr, Bool.false_eq_true,
        if_false, Bool.not_true, Option.getD_some, if_neg hlt, if_pos hcnt]

/-- Witness for C5: with a reminder due in 40 minutes and a tracker last
shown at time 0 with count 1, a check 5 minutes (300 s) later suppresses,
a check 11 minutes (660 s) later shows and updates the tracker, and with
count 3 the check suppresses. -/
theorem should_show_reminders_throttle_witness :
    (should_show_reminders "conv1" [⟨"standup", "", 40⟩] 300
        (fun _ => some ⟨some 0, 1⟩)
      = (false, fun _ => some (Tracking.mk (some 0) 1))) ∧
    (should_show_reminders "conv1" [⟨"standup", "", 40⟩] 660
        (fun _ => some ⟨some 0, 1⟩)
      = (true, mapUpd (fun _ => some (Tracking.mk (some 0) 1)) "conv1"
          ⟨some 660, 2⟩)) ∧
    ((should_show_reminders "conv1" [⟨"standup", "", 40⟩] 660
        (fun _ => some ⟨some 0, 3⟩)).1 = false) := by
  refine ⟨?_, ?_, ?_⟩
  · exact (should_show_reminders_throttle "conv1" [⟨"standup", "", 40⟩] 300 0 1
      (fun _ => some ⟨some 0, 1⟩) rfl (by decide) (by decide)).1 (by norm_num)
  · exact (should_show_reminders_throttle "conv1" [⟨"standup", "", 40⟩] 660 0 1
      (fun _ => some ⟨some 0, 1⟩) rfl (by decide) (by decide)).2.1
      (by norm_num) (by norm_num)
  · exact (should_show_reminders_throttle "conv1" [⟨"standup", "", 40⟩] 660 0 3
      (fun _ => some ⟨some 0, 3⟩) rfl (by decide) (by decide)).2.2 (by norm_num)

/-- C7: finalization is terminal and non-reentrant — a successful finalize
removes the conversation id from the active table, and any second finalize
on the same id (by an authorized caller, whatever the state of the
summarizer) fails with the "not found" error envelope and leaves the table
unchanged. -/
theorem end_chat_and_summarize_terminal (chat_id : String) (summary : String)
    (chats : String → Option (List Msg)) (h : List Msg)
    (hactive : chats chat_id = some h) :
    (end_chat_and_summarize chat_id true true (some summary) chats).1
        = .ok chat_id summary ∧
    (end_chat_and_summarize chat_id true true (some summary) chats).2 chat_id
        = none ∧
    (∀ (mistral_available : Bool) (summary2? : Option String),
      end_chat_and_summarize chat_id true mistral_available summary2?
          ((end_chat_and_summarize chat_id true true (some summary) chats).2)
        = (.err "Conversation non trouvée.",
            (end_chat_and_summarize chat_id true true (some summary) chats).2)) := by
  have hfirst :
      end_chat_and_summarize chat_id true true (some summary) chats
        = (.ok chat_id summary, mapDel chats chat_id) := by
    simp only [end_chat_and_summarize, Bool.not_true, Bool.false_eq_true,
      if_false, hactive]
  refine ⟨by rw [hfirst], ?_, ?_⟩
  · rw [hfirst]
    simp [mapDel]
  · intro mv s2
    rw [hfirst]
    have hnone : mapDel chats chat_id chat_id = none := by simp [mapDel]
    simp only [end_chat_and_summarize, Bool.not_true, Bool.false_eq_true,
      if_false, hnone]

/-- Witness for C7 at a concrete active conversation. -/
theorem end_chat_and_summarize_terminal_witness :
    (end_chat_and_summarize "chat1" true true (some "résumé")
        (fun _ => some [⟨"user", "salut", ""⟩])).1 = .ok "chat1" "résumé" ∧
    (end_chat_and_summarize "chat1" true false none
        ((end_chat_and_summarize "chat1" true true (some "résumé")
          (fun _ => some [⟨"user", "salut", ""⟩])).2)).1
      = .err "Conversation non trouvée." := by
  have h := end_chat_and_summarize_terminal "chat1" "résumé"
    (fun _ => some [⟨"user", "salut", ""⟩]) [⟨"user", "salut", ""⟩] rfl
  exact ⟨h.1, by rw [h.2.2 false none]⟩

/-! ## Idempotence of reminder deduplication (C9) -/

/-- Pairwise distinctness of the normalized dedup keys. -/
def keysDistinct (l : List Reminder) : Prop :=
  l.Pairwise (fun a b => normKey a ≠ normKey b)

/-- Invariant of the `detect_duplicate_reminders` loop relating the
`seen_reminders` dict to the `unique_reminders` list. -/
def DedupInv (seen : String → Option Reminder) (unique : List Reminder) :
    Prop :=
  keysDistinct unique ∧
  (∀ k e, seen k = some e → e ∈ unique ∧ normKey e = k) ∧
  (∀ e ∈ unique, (seen (normKey e)).isSome = true)

theorem dedupInv_nil : DedupInv (fun _ => none) [] := by
  refine ⟨List.Pairwise.nil, ?_, ?_⟩
  · intro k e h; cases h
  · intro e h; cases h

theorem keysDistinct_nodup {l : List Reminder} (h : keysDistinct l) :
    l.Nodup :=
  h.imp (fun hne heq => hne (congrArg normKey heq))

theorem dedupAux_preserves (xs : List Reminder)
    (seen : String → Option Reminder) (unique : List Reminder)
    (hinv : DedupInv seen unique) :
    keysDistinct (detectDupAux xs seen unique) := by
  induction xs generalizing seen unique with
  | nil => exact hinv.1
  | cons r rest ih =>
    obtain ⟨hdis, hseen, hsome⟩ := hinv
    simp only [detectDupAux]
    cases hlook : seen (normKey r) with
    | none =>
      apply ih
      refine ⟨?_, ?_, ?_⟩
      · -- keysDistinct (unique ++ [r])
        rw [keysDistinct, List.pairwise_append]
        refine ⟨hdis, List.pairwise_singleton _ _, ?_⟩
        intro a ha b hb
        rw [List.mem_singleton] at hb
        subst hb
        intro hk
        have := hsome a ha
        rw [hk, hlook] at this
        cases this
      · intro k e he
        by_cases hk : k = normKey r
        · subst hk
          rw [mapUpd] at he
          simp only [if_pos rfl] at he
          cases he
          exact ⟨List.mem_append_right _ (List.mem_singleton.2 rfl), rfl⟩
        · rw [mapUpd] at he
          simp only [if_neg hk] at he
          obtain ⟨hmem, hkey⟩ := hseen k e he
          exact ⟨List.mem_append_left _ hmem, hkey⟩
      · intro e he
        rcases List.mem_append.1 he with he | he
        · by_cases hk : normKey e = normKey r
          · rw [mapUpd, if_pos hk]; rfl
          · rw [mapUpd, if_neg hk]; exact hsome e he
        · rw [List.mem_singleton] at he
          subst he
          rw [mapUpd, if_pos rfl]; rfl
    | some existing =>
      obtain ⟨hexmem, hexkey⟩ := hseen _ _ hlook
      dsimp only
      by_cases hcl : r.minutes_until < existing.minutes_until
      · rw [if_pos hcl]
        apply ih
        have hnodup : unique.Nodup := keysDistinct_nodup hdis
        have herase : ∀ a ∈ unique.erase existing,
            a ≠ existing ∧ a ∈ unique := by
          intro a ha
          exact (List.Nodup.mem_erase_iff hnodup).1 ha
        have herasekey : ∀ a ∈ unique.erase existing,
            normKey a ≠ normKey r := by
          intro a ha
          obtain ⟨hane, hamem⟩ := herase a ha
          have hsym : Symmetric (fun a b : Reminder => normKey a ≠ normKey b) :=
            fun _ _ h => fun he => h he.symm
          have := hdis.forall hsym hamem hexmem hane
          rw [hexkey] at this
          exact this
        refine ⟨?_, ?_, ?_⟩
        · rw [keysDistinct, List.pairwise_append]
          refine ⟨hdis.sublist (List.erase_sublist _ _),
            List.pairwise_singleton _ _, ?_⟩
          intro a ha b hb
          rw [List.mem_singleton] at hb
          subst hb
          exact herasekey a ha
        · intro k e he
          by_cases hk : k = normKey r
          · subst hk
            rw [mapUpd] at he
            simp only [if_pos rfl] at he
            cases he
            exact ⟨List.mem_append_right _ (List.mem_singleton.2 rfl), rfl⟩
          · rw [mapUpd] at he
            simp only [if_neg hk] at he
            obtain ⟨hmem, hkey⟩ := hseen k e he
            have hne : e ≠ existing := by
              intro heq
              apply hk
              rw [← hkey, heq]
              exact hexkey
            refine ⟨List.mem_append_left _
              ((List.Nodup.mem_erase_iff hnodup).2 ⟨hne, hmem⟩), hkey⟩
        · intro e he
          rcases List.mem_append.1 he with he | he
          · by_cases hk : normKey e = normKey r
            · rw [mapUpd, if_pos hk]; rfl
            · rw [mapUpd, if_neg hk]
              exact hsome e (herase e he).2
          · rw [List.mem_singleton] at he
            subst he
            rw [mapUpd, if_pos rfl]; rfl
      · rw [if_neg hcl]
        exact ih seen unique ⟨hdis, hseen, hsome⟩

/-- The output of `detect_duplicate_reminders` has pairwise-distinct
normalized keys. -/
theorem detect_duplicate_reminders_keysDistinct (x : List Reminder) :
    keysDistinct (detect_duplicate_reminders x) := by
  cases x with
  | nil => exact List.Pairwise.nil
  | cons r rest => exact dedupAux_preserves (r :: rest) _ _ dedupInv_nil

theorem dedupAux_of_distinct (xs : List Reminder)
    (seen : String → Option Reminder) (unique : List Reminder)
    (hseen : ∀ k e, seen k = some e → e ∈ unique ∧ normKey e = k)
    (hdis : keysDistinct (unique ++ xs)) :
    detectDupAux xs seen unique = unique ++ xs := by
  induction xs generalizing seen unique with
  | nil => simp [detectDupAux]
  | cons r rest ih =>
    have hlook : seen (normKey r) = none := by
      cases hl : seen (normKey r) with
      | none => rfl
      | some e =>
        obtain ⟨hmem, hkey⟩ := hseen _ _ hl
        rw [keysDistinct, List.pairwise_append] at hdis
        have := hdis.2.2 e hmem r (List.mem_cons_self _ _)
        exact absurd hkey this
    simp only [detectDupAux, hlook]
    have hdis2 : keysDistinct ((unique ++ [r]) ++ rest) := by
      rw [List.append_assoc, List.singleton_append]
      exact hdis
    have hseen2 : ∀ k e, mapUpd seen (normKey r) r k = some e →
        e ∈ unique ++ [r] ∧ normKey e = k := by
      intro k e he
      by_cases hk : k = normKey r
      · subst hk
        rw [mapUpd] at he
        simp only [if_pos rfl] at he
        cases he
        exact ⟨List.mem_append_right _ (List.mem_singleton.2 rfl), rfl⟩
      · rw [mapUpd] at he
        simp only [if_neg hk] at he
        obtain ⟨hmem, hkey⟩ := hseen k e he
        exact ⟨List.mem_append_left _ hmem, hkey⟩
    rw [ih _ _ hseen2 hdis2, List.append_assoc, List.singleton_append]

/-- C9: reminder deduplication is idempotent —
`dedupe (dedupe x) = dedupe x`. -/
theorem detect_duplicate_reminders_idempotent (x : List Reminder) :
    detect_duplicate_reminders (detect_duplicate_reminders x)
      = detect_duplicate_reminders x := by
  cases hy : detect_duplicate_reminders x with
  | nil => rfl
  | cons r rest =>
    have hdis : keysDistinct (r :: rest) := by
      rw [← hy]
      exact detect_duplicate_reminders_keysDistinct x
    show detectDupAux (r :: rest) (fun _ => none) [] = r :: rest
    have := dedupAux_of_distinct (r :: rest) (fun _ => none) []
      (fun k e h => by cases h) (by simpa using hdis)
    simpa using this

/-- C8 counterexample: the claim says system and tool messages never
appear in the durable per-conversation file, also when it is rewritten at
finalization; but `end_chat_and_summarize` renders every message of the
history, labelling non-user roles as `Assistant`, so the content of a
system message does appear in the rewritten file — while the per-round-trip
writer filters it out. -/
theorem end_chat_transcript_includes_system_counterexample :
    end_chat_conversation_text [⟨"system", "SYSPROMPT", ""⟩]
        = "Assistant: SYSPROMPT\n" ∧
    save_conversation_text [⟨"system", "SYSPROMPT", ""⟩] = "" ∧
    (Msg.mk "system" "SYSPROMPT" "").role = "system" := by
  refine ⟨by decide, by decide, rfl⟩

/-- C8 (amended): the transcript persisted after every round trip contains
only user and assistant content — every message surviving the
`save_conversation_to_file` filter has role `user` or `assistant`.  (The
finalization rewrite does not satisfy this: see the counterexample.) -/
theorem visible_messages_only_user_assistant (history : List Msg) :
    ∀ m ∈ visible_messages history, m.role = "user" ∨ m.role = "assistant" := by
  intro m hm
  rw [visible_messages, List.mem_filter] at hm
  obtain ⟨_, hcond⟩ := hm
  by_cases hu : m.role = "user"
  · exact Or.inl hu
  · by_cases ha : m.role = "assistant"
    · exact Or.inr ha
    · rw [if_neg hu, if_neg ha] at hcond
      cases hcond

/-- Witness for the amended C8 at a concrete mixed history. -/
theorem visible_messages_only_user_assistant_witness :
    (Msg.mk "user" "salut" "").role = "user" ∨
    (Msg.mk "user" "salut" "").role = "assistant" :=
  visible_messages_only_user_assistant
    [⟨"user", "salut", ""⟩, ⟨"tool", "out", "id1"⟩, ⟨"system", "sys", ""⟩]
    (Msg.mk "user" "salut" "") (by decide)

/-- C3 counterexample: the claim says the canned exchange is appended to
the conversation transcript on a portfolio-rule match; but the turn
returns before touching `active_chats`, so the transcript of the matched
conversation is unchanged (here still empty) instead of holding the
user/assistant exchange. -/
theorem portfolio_rule_no_append_counterexample :
    (chat_with_mistral_turn (fun _ => ⟨"", []⟩) (fun _ => "")
        (fun _ _ => none) (some [("exact_quoi", "ok")]) "quoi" "sys" "quoi"
        "conv" false (fun _ => some [])).outcome = .success "ok" ∧
    (chat_with_mistral_turn (fun _ => ⟨"", []⟩) (fun _ => "")
        (fun _ _ => none) (some [("exact_quoi", "ok")]) "quoi" "sys" "quoi"
        "conv" false (fun _ => some [])).chats "conv" = some [] ∧
    some ([] : List Msg)
      ≠ some [Msg.mk "user" "quoi" "", Msg.mk "assistant" "ok" ""] := by
  refine ⟨by decide, by decide, by decide⟩

/-- C3 (amended): a turn whose raw utterance matches one of the stored
portfolio rules (first match wins, with a non-empty canned response)
returns the canned response immediately — zero model completions, no tool
loop — and leaves the conversation table exactly as it was (the canned
exchange is not appended). -/
theorem portfolio_rule_short_circuit (complete : List Msg → MResp)
    (tool_output : ToolCall → String)
    (re_search : String → String → Option Bool)
    (patterns : List (String × String)) (r : String)
    (user_message system_message enhanced chat_id : String)
    (finalize_ok : Bool) (chats : String → Option (List Msg))
    (hmatch : check_user_portfolio_rules user_message patterns re_search
      = some r) (hne : r ≠ "") :
    chat_with_mistral_turn complete tool_output re_search (some patterns)
        user_message system_message enhanced chat_id finalize_ok chats
      = ⟨.success r, 0, chats⟩ := by
  have htrig : reflective_rule_trigger user_message (some patterns) re_search
      = some r := by
    simp only [reflective_rule_trigger, hmatch, if_neg hne]
  simp only [chat_with_mistral_turn, htrig]

/-- Witness for the amended C3: the `exact_quoi` rule fires on the
utterance `"quoi"` and short-circuits the turn. -/
theorem portfolio_rule_short_circuit_witness :
    chat_with_mistral_turn (fun _ => ⟨"m", []⟩) (fun _ => "")
        (fun _ _ => none) (some [("exact_quoi", "Chef, oui chef")]) "quoi"
        "sys" "quoi enrichi" "conv" false (fun _ => none)
      = ⟨.success "Chef, oui chef", 0, fun _ => none⟩ :=
  portfolio_rule_short_circuit (fun _ => ⟨"m", []⟩) (fun _ => "")
    (fun _ _ => none) [("exact_quoi", "Chef, oui chef")] "Chef, oui chef"
    "quoi" "sys" "quoi enrichi" "conv" false (fun _ => none) (by decide)
    (by decide)

/-! ## Sorting lemmas -/

theorem mem_stable_insert_desc {α β : Type} [LinearOrder β] (key : α → β)
    (x a : α) (l : List α) :
    a ∈ stable_insert_desc key x l ↔ a = x ∨ a ∈ l := by
  induction l with
  | nil => simp [stable_insert_desc]
  | cons y ys ih =>
    by_cases h : key y < key x
    · simp [stable_insert_desc, if_pos h]
    · simp only [stable_insert_desc, if_neg h, List.mem_cons, ih]
      tauto

theorem mem_stable_sort_desc_aux {α β : Type} [LinearOrder β] (key : α → β)
    (l : List α) :
    ∀ (acc : List α) (a : α),
      a ∈ l.foldl (fun acc x => stable_insert_desc key x acc) acc ↔
        a ∈ acc ∨ a ∈ l := by
  induction l with
  | nil => simp
  | cons y ys ih =>
    intro acc a
    simp only [List.foldl_cons, ih, mem_stable_insert_desc, List.mem_cons]
    tauto

theorem mem_stable_sort_desc {α β : Type} [LinearOrder β] (key : α → β)
    (l : List α) (a : α) :
    a ∈ stable_sort_desc key l ↔ a ∈ l := by
  rw [stable_sort_desc, mem_stable_sort_desc_aux]
  simp

theorem pairwise_stable_insert_desc {α β : Type} [LinearOrder β]
    (key : α → β) (x : α) (l : List α)
    (h : l.Pairwise (fun a b => key b ≤ key a)) :
    (stable_insert_desc key x l).Pairwise (fun a b => key b ≤ key a) := by
  induction l with
  | nil => simp [stable_insert_desc]
  | cons y ys ih =>
    rw [List.pairwise_cons] at h
    obtain ⟨hy, hys⟩ := h
    by_cases hlt : key y < key x
    · rw [stable_insert_desc, if_pos hlt, List.pairwise_cons]
      refine ⟨?_, List.pairwise_cons.2 ⟨hy, hys⟩⟩
      intro z hz
      rcases List.mem_cons.1 hz with hz | hz
      · subst hz; exact le_of_lt hlt
      · exact le_trans (hy z hz) (le_of_lt hlt)
    · rw [stable_insert_desc, if_neg hlt, List.pairwise_cons]
      refine ⟨?_, ih hys⟩
      intro z hz
      rcases (mem_stable_insert_desc key x z ys).1 hz with hz | hz
      · subst hz; exact not_lt.1 hlt
      · exact hy z hz

theorem pairwise_stable_sort_desc_aux {α β : Type} [LinearOrder β]
    (key : α → β) (l : List α) :
    ∀ acc : List α, acc.Pairwise (fun a b => key b ≤ key a) →
      (l.foldl (fun acc x => stable_insert_desc key x acc) acc).Pairwise
        (fun a b => key b ≤ key a) := by
  induction l with
  | nil => intro acc h; simpa using h
  | cons y ys ih =>
    intro acc h
    simp only [List.foldl_cons]
    exact ih _ (pairwise_stable_insert_desc key y acc h)

/-- The stable descending sort is sorted: the key of each entry dominates
the key of every later entry. -/
theorem pairwise_stable_sort_desc {α β : Type} [LinearOrder β]
    (key : α → β) (l : List α) :
    (stable_sort_desc key l).Pairwise (fun a b => key b ≤ key a) :=
  pairwise_stable_sort_desc_aux key l [] List.Pairwise.nil

/-! ## Merge and ranking (C6) -/

/-- Origin of the entries of the merge step (`main.py` 2087-2089): each
merged entry either comes from the primary list, or is an additional hit
whose `memory_id` collides with no primary hit. -/
theorem mem_merge_memory_results (extra : List SearchResult) :
    ∀ (acc : List SearchResult) (r : SearchResult),
      r ∈ merge_memory_results acc extra →
        r ∈ acc ∨ (r ∈ extra ∧ ∀ x ∈ acc, x.memory_id ≠ r.memory_id) := by
  induction extra with
  | nil => intro acc r h; exact Or.inl h
  | cons e rest ih =>
    intro acc r h
    rw [merge_memory_results, List.foldl_cons] at h
    by_cases hany : acc.any (fun x => x.memory_id == e.memory_id) = true
    · rw [if_pos hany] at h
      rcases ih acc r h with h | ⟨hmem, hid⟩
      · exact Or.inl h
      · exact Or.inr ⟨List.mem_cons_of_mem _ hmem, hid⟩
    · rw [if_neg hany] at h
      rcases ih (acc ++ [e]) r h with h | ⟨hmem, hid⟩
      · rcases List.mem_append.1 h with h | h
        · exact Or.inl h
        · rw [List.mem_singleton] at h
          subst h
          refine Or.inr ⟨List.mem_cons_self _ _, ?_⟩
          intro x hx heq
          apply hany
          exact List.any_eq_true.2 ⟨x, hx, by simpa using heq⟩
      · exact Or.inr ⟨List.mem_cons_of_mem _ hmem,
          fun x hx => hid x (List.mem_append_left _ hx)⟩

/-- C6 counterexample: the claim says hits with the same record identity
are collapsed keeping the entry with the higher adjusted score; but the
merge keeps the first-encountered entry regardless — here the additional
hit `"y"` has a strictly higher adjusted score than the colliding primary
hit `"x"`, yet the merged list keeps `"x"`. -/
theorem merge_and_rank_keeps_first_counterexample :
    merge_and_rank
        [⟨"1", "x", [], "", "", "general", 0.5, 0.1⟩]
        [⟨"1", "y", [], "", "", "work", 0.5, 0.9⟩]
      = [⟨"1", "x", [], "", "", "general", 0.5, 0.1⟩] ∧
    priority_score (⟨"1", "x", [], "", "", "general", 0.5, 0.1⟩ : SearchResult)
      < priority_score (⟨"1", "y", [], "", "", "work", 0.5, 0.9⟩ : SearchResult) ∧
    (SearchResult.memory_id ⟨"1", "x", [], "", "", "general", 0.5, 0.1⟩ : String)
      = SearchResult.memory_id ⟨"1", "y", [], "", "", "work", 0.5, 0.9⟩ := by
  refine ⟨by decide, by decide, rfl⟩

/-- C6 (amended): the merged context list scores each hit as base
similarity plus 0.2 for work/project/code, plus 0.3 for a technology
conversation summary, minus 0.1 for any other conversation summary; hits
whose record identity collides with an earlier hit are dropped keeping the
first-encountered entry (the one from the primary search); and the result
is sorted descending by adjusted score and truncated to the top 5. -/
theorem merge_and_rank_spec (initial extra : List SearchResult) :
    (merge_and_rank initial extra).length ≤ 5 ∧
    (merge_and_rank initial extra).Pairwise
      (fun a b => priority_score b ≤ priority_score a) ∧
    (∀ r ∈ merge_and_rank initial extra,
      r ∈ initial ∨ (r ∈ extra ∧ ∀ x ∈ initial, x.memory_id ≠ r.memory_id)) := by
  refine ⟨List.length_take_le _ _, ?_, ?_⟩
  · exact (pairwise_stable_sort_desc priority_score _).sublist
      (List.take_sublist _ _)
  · intro r hr
    have hsort : r ∈ stable_sort_desc priority_score
        (merge_memory_results initial extra) :=
      List.mem_of_mem_take hr
    have hmerge : r ∈ merge_memory_results initial extra :=
      (mem_stable_sort_desc priority_score _ r).1 hsort
    exact mem_merge_memory_results extra initial r hmerge

/-- Witness for the amended C6 at a concrete pair of result lists. -/
theorem merge_and_rank_spec_witness :
    (merge_and_rank [⟨"1", "x", [], "", "", "general", 0.5, 0.1⟩]
        [⟨"2", "y", [], "", "", "work", 0.5, 0.9⟩]).length ≤ 5 ∧
    ((⟨"2", "y", [], "", "", "work", 0.5, 0.9⟩ : SearchResult)
        ∈ [(⟨"1", "x", [], "", "", "general", 0.5, 0.1⟩ : SearchResult)] ∨
      ((⟨"2", "y", [], "", "", "work", 0.5, 0.9⟩ : SearchResult)
          ∈ [(⟨"2", "y", [], "", "", "work", 0.5, 0.9⟩ : SearchResult)] ∧
        ∀ x ∈ [(⟨"1", "x", [], "", "", "general", 0.5, 0.1⟩ : SearchResult)],
          x.memory_id ≠ "2")) := by
  have h := merge_and_rank_spec
    [⟨"1", "x", [], "", "", "general", 0.5, 0.1⟩]
    [⟨"2", "y", [], "", "", "work", 0.5, 0.9⟩]
  exact ⟨h.1, h.2.2 ⟨"2", "y", [], "", "", "work", 0.5, 0.9⟩ (by decide)⟩

/-! ## The bounded agent loop (C2) -/

theorem run_chat_loop_spec (complete : List Msg → MResp)
    (tool_output : ToolCall → String) (user_message : String)
    (finalize_ok : Bool) :
    ∀ (fuel : Nat) (t : List Msg),
    (run_chat_loop complete tool_output user_message finalize_ok t fuel).2.1
        ≤ fuel ∧
    ((∀ i, i < fuel →
        (complete (loop_transcript complete tool_output t i)).tool_calls
          ≠ []) →
      (run_chat_loop complete tool_output user_message finalize_ok t fuel).1
        = .error loop_exhausted_message) ∧
    (∀ j, j < fuel →
      (∀ i, i < j →
        (complete (loop_transcript complete tool_output t i)).tool_calls
          ≠ []) →
      (complete (loop_transcript complete tool_output t j)).tool_calls = [] →
      (run_chat_loop complete tool_output user_message finalize_ok t fuel).1
        = .success (final_answer user_message finalize_ok
            (loop_transcript complete tool_output t j)
            (complete (loop_transcript complete tool_output t j)))) := by
  intro fuel
  induction fuel with
  | zero =>
    intro t
    refine ⟨Nat.le_refl 0, fun _ => rfl, ?_⟩
    intro j hj
    exact absurd hj (Nat.not_lt_zero j)
  | succ fuel ih =>
    intro t
    by_cases he : (complete t).tool_calls = []
    · have hempty : (complete t).tool_calls.isEmpty = true := by
        rw [he]; rfl
      have hrun : run_chat_loop complete tool_output user_message finalize_ok
          t (fuel + 1)
          = (.success (final_answer user_message finalize_ok t (complete t)),
              1, t ++ [{ role := "assistant", content := (complete t).content }]) := by
        rw [run_chat_loop]
        simp only [hempty, if_true]
      refine ⟨?_, ?_, ?_⟩
      · rw [hrun]
        exact Nat.succ_le_succ (Nat.zero_le fuel)
      · intro hall
        exact absurd he (hall 0 (Nat.succ_pos fuel))
      · intro j hj hbefore hj0
        cases j with
        | zero =>
          rw [hrun]
          rfl
        | succ j2 => exact absurd he (hbefore 0 (Nat.succ_pos j2))
    · have hempty : (complete t).tool_calls.isEmpty = false := by
        cases hc : (complete t).tool_calls with
        | nil => exact absurd hc he
        | cons a l => rfl
      have hrun : run_chat_loop complete tool_output user_message finalize_ok
          t (fuel + 1)
          = ((run_chat_loop complete tool_output user_message finalize_ok
                (loop_step complete tool_output t) fuel).1,
             (run_chat_loop complete tool_output user_message finalize_ok
                (loop_step complete tool_output t) fuel).2.1 + 1,
             (run_chat_loop complete tool_output user_message finalize_ok
                (loop_step complete tool_output t) fuel).2.2) := by
        rw [run_chat_loop]
        simp only [hempty, Bool.false_eq_true, if_false]
      obtain ⟨ihcnt, ihexh, ihsucc⟩ := ih (loop_step complete tool_output t)
      refine ⟨?_, ?_, ?_⟩
      · rw [hrun]
        exact Nat.succ_le_succ ihcnt
      · intro hall
        rw [hrun]
        apply ihexh
        intro i hi
        exact hall (i + 1) (Nat.succ_lt_succ hi)
      · intro j hj hbefore hj0
        cases j with
        | zero => exact absurd hj0 he
        | succ j2 =>
          rw [hrun]
          exact ihsucc j2 (Nat.lt_of_succ_lt_succ hj)
            (fun i hi => hbefore (i + 1) (Nat.succ_lt_succ hi)) hj0

/-- C2 counterexample: the claim says the content of a no-tool-call response is
returned as the final answer; but the source strips the content and, when
auto-finalization triggers and succeeds (here the farewell keyword "bye"),
appends a finalization notice — so the returned response differs from the
model content `"hello "`. -/
theorem chat_loop_annotates_final_answer_counterexample :
    (chat_with_mistral_loop (fun _ => ⟨"hello ", []⟩) (fun _ => "") "bye"
        true []).1
      = .success ("hello" ++ finalize_note "Mots-clés de fin détectés") ∧
    ChatOutcome.success ("hello" ++ finalize_note "Mots-clés de fin détectés")
      ≠ .success "hello " := by
  refine ⟨by decide, by decide⟩

/-- C2 (amended): the agent loop performs at most 20 model completions;
if iteration `j < 20` is the first whose completion carries no tool calls,
the loop exits returning the content of that completion as the final answer
(stripped, and extended by the auto-finalization notice when
auto-finalization triggers and succeeds); and if all 20 iterations carry
tool calls the turn returns the structured error envelope instead of
raising or looping. -/
theorem chat_with_mistral_loop_bounded (complete : List Msg → MResp)
    (tool_output : ToolCall → String) (user_message : String)
    (finalize_ok : Bool) (t : List Msg) :
    (chat_with_mistral_loop complete tool_output user_message finalize_ok
        t).2.1 ≤ 20 ∧
    ((∀ i, i < 20 →
        (complete (loop_transcript complete tool_output t i)).tool_calls
          ≠ []) →
      (chat_with_mistral_loop complete tool_output user_message finalize_ok
          t).1 = .error loop_exhausted_message) ∧
    (∀ j, j < 20 →
      (∀ i, i < j →
        (complete (loop_transcript complete tool_output t i)).tool_calls
          ≠ []) →
      (complete (loop_transcript complete tool_output t j)).tool_calls = [] →
      (chat_with_mistral_loop complete tool_output user_message finalize_ok
          t).1
        = .success (final_answer user_message finalize_ok
            (loop_transcript complete tool_output t j)
            (complete (loop_transcript complete tool_output t j)))) :=
  run_chat_loop_spec complete tool_output user_message finalize_ok 20 t

/-- Witness for the amended C2: a model that answers `"ok"` without tools
on the first iteration yields a success with content `"ok"`, within the
cap. -/
theorem chat_with_mistral_loop_bounded_witness :
    (chat_with_mistral_loop (fun _ => ⟨"ok", []⟩) (fun _ => "") "salut poli"
        false []).2.1 ≤ 20 ∧
    (chat_with_mistral_loop (fun _ => ⟨"ok", []⟩) (fun _ => "") "salut poli"
        false []).1 = .success "ok" := by
  have h := chat_with_mistral_loop_bounded (fun _ => ⟨"ok", []⟩) (fun _ => "")
    "salut poli" false []
  refine ⟨h.1, ?_⟩
  have h2 := h.2.2 0 (by decide) (fun i hi => absurd hi (Nat.not_lt_zero i))
    rfl
  rw [h2]
  decide

/-! ## Team isolation of memory search (C1) -/

/-- Every point of a Qdrant state built by `add_memory` writes originates
from one of the writes, and lives in the collection of the team of that
write. -/
theorem qdrant_points_of_writes (writes : List (String × Memory)) :
    ∀ (st : QdrantState) (name : String) (q : QPoint),
      q ∈ (writes.foldl
          (fun st w => qdrant_store_memory st w.2 w.1 w.2.team_id) st).points
            name →
      q ∈ st.points name ∨
        ∃ w ∈ writes, q = payload_of w.2 w.1 ∧
          name = get_collection_name w.2.team_id := by
  induction writes with
  | nil => intro st name q h; exact Or.inl h
  | cons w rest ih =>
    intro st name q h
    rw [List.foldl_cons] at h
    rcases ih _ name q h with h2 | ⟨w2, hw2, hq, hname⟩
    · rw [qdrant_store_memory] at h2
      dsimp only at h2
      rw [storeUpd] at h2
      by_cases hn : name = get_collection_name w.2.team_id
      · rw [if_pos hn] at h2
        rcases List.mem_append.1 h2 with h3 | h3
        · refine Or.inl ?_
          rw [hn]
          exact List.mem_of_mem_filter h3
        · rw [List.mem_singleton] at h3
          exact Or.inr ⟨w, List.mem_cons_self _ _, h3, hn⟩
      · rw [if_neg hn] at h2
        exact Or.inl h2
    · exact Or.inr ⟨w2, List.mem_cons_of_mem _ hw2, hq, hname⟩

/-- Origin of the hits of `QdrantStorage.search_memories`: each rendered
result comes from a point of the team collection of the caller. -/
theorem mem_qdrant_search_memories
    (select : String → List QPoint → List (QPoint × ℚ)) (st : QdrantState)
    (query team_id : String)
    (hsel : ∀ q l pr, pr ∈ select q l → pr.1 ∈ l) :
    ∀ r ∈ qdrant_search_memories select st query team_id,
      ∃ qp ∈ st.points (get_collection_name team_id),
        r.content = qp.content ∧ r.user_id = qp.user_id ∧
          r.memory_id = qp.pid := by
  intro r hr
  rw [qdrant_search_memories] at hr
  by_cases hn : get_collection_name team_id ∈ st.collection_names
  · rw [if_pos hn] at hr
    obtain ⟨pr, hpr, hrender⟩ := List.mem_map.1 hr
    refine ⟨pr.1, hsel _ _ _ hpr, ?_, ?_, ?_⟩ <;> rw [← hrender]
  · rw [if_neg hn] at hr
    cases hr

/-- Origin of the hits of the in-memory fallback search: each result comes
from a team memory of the caller stored in the fallback table. -/
theorem mem_search_memories_fallback (memories : List (String × Memory))
    (query team_id : String) (limit : Nat) :
    ∀ r ∈ search_memories_fallback memories query team_id limit,
      ∃ p ∈ memories, p.2.team_id = team_id ∧ r.memory_id = p.1 ∧
        r.content = p.2.content ∧ r.user_id = p.2.user_id := by
  intro r hr
  simp only [search_memories_fallback] at hr
  obtain ⟨t, ht, hrender⟩ := List.mem_map.1 hr
  have ht1 := (List.mem_filter.1 ht).1
  have ht2 : t ∈ stable_sort_desc (fun t => t.1)
      ((memories.filter (fun p => decide (p.2.team_id = team_id))).map
        (fun p => (calculate_similarity query p.2.content, p.1, p.2))) :=
    List.mem_of_mem_take ht1
  have ht3 := (mem_stable_sort_desc _ _ t).1 ht2
  obtain ⟨p, hp, hpt⟩ := List.mem_map.1 ht3
  obtain ⟨hpmem, hpteam⟩ := List.mem_filter.1 hp
  refine ⟨p, hpmem, of_decide_eq_true hpteam, ?_, ?_, ?_⟩ <;>
    rw [← hrender, ← hpt]

/-- C1 counterexample: the claim says a memory stored with visibility
`"private"` by user A is absent from the search results of another user B
of the same team; but the search applies no visibility filter at all (the
identity of the caller does not even reach the filtering), so the search
by B over a team table holding only the private memory of A returns it. -/
theorem search_returns_private_memory_counterexample :
    (search_memories_tool (fun _ _ => []) ⟨[], fun _ => []⟩ false
        [("m1", ⟨"alpha beta", "userA", "team1", "", [], "general",
          "private", 0.5⟩)] "alpha" "team1" 5).map
        (fun r => (r.memory_id, r.user_id))
      = [("m1", "userA")] ∧
    (Memory.mk "alpha beta" "userA" "team1" "" [] "general" "private"
        0.5).visibility = "private" ∧
    ("userA" : String) ≠ "userB" := by
  refine ⟨by decide, rfl, by decide⟩

/-- C1 (amended): team isolation holds — every record returned by the
`search_memories` tool originates from the team of the caller, on both paths:
a Qdrant hit comes from a memory written to the team collection of the caller
(under the stated injectivity of collection naming on the written teams),
and a fallback hit comes from an in-memory record whose team id equals the
that of the caller.  The private-visibility exclusion of the claim does not
hold (see the counterexample): visibility is never consulted by search. -/
theorem search_memories_team_isolated
    (select : String → List QPoint → List (QPoint × ℚ))
    (writes : List (String × Memory)) (storage_available : Bool)
    (memories : List (String × Memory)) (query team_id : String)
    (limit : Nat)
    (hsel : ∀ q l pr, pr ∈ select q l → pr.1 ∈ l)
    (hinj : ∀ w ∈ writes,
      get_collection_name w.2.team_id = get_collection_name team_id →
        w.2.team_id = team_id) :
    ∀ r ∈ search_memories_tool select (qdrant_of_writes writes)
        storage_available memories query team_id limit,
      (∃ w ∈ writes, w.2.team_id = team_id ∧ r.content = w.2.content ∧
        r.user_id = w.2.user_id) ∨
      (∃ p ∈ memories, p.2.team_id = team_id ∧ r.memory_id = p.1 ∧
        r.content = p.2.content ∧ r.user_id = p.2.user_id) := by
  intro r hr
  rw [search_memories_tool] at hr
  by_cases hq : (if storage_available then
      qdrant_search_memories select (qdrant_of_writes writes) query team_id
    else []).isEmpty = true
  · rw [if_pos hq] at hr
    exact Or.inr (mem_search_memories_fallback memories query team_id limit
      r hr)
  · rw [if_neg hq] at hr
    cases hsa : storage_available with
    | false =>
      rw [hsa] at hr hq
      simp at hq
    | true =>
      rw [hsa] at hr
      simp only [if_true] at hr
      obtain ⟨qp, hqp, hc, hu, hm⟩ := mem_qdrant_search_memories select
        (qdrant_of_writes writes) query team_id hsel r hr
      rw [qdrant_of_writes] at hqp
      rcases qdrant_points_of_writes writes _ _ _ hqp with h0 | ⟨w, hw, hqeq, hname⟩
      · cases h0
      · have hteam : w.2.team_id = team_id := hinj w hw hname.symm
        refine Or.inl ⟨w, hw, hteam, ?_, ?_⟩
        · rw [hc, hqeq]; rfl
        · rw [hu, hqeq]; rfl

/-- Witness for the amended C1: a fallback search over a one-entry team
table returns that entry, which the theorem traces back to the team of
the caller. -/
theorem search_memories_team_isolated_witness :
    (∃ w ∈ ([] : List (String × Memory)), w.2.team_id = "team1" ∧
      (SearchResult.mk "m1" "alpha beta" [] "" "userA" "general" 0.5
        0.5).content = w.2.content ∧
      (SearchResult.mk "m1" "alpha beta" [] "" "userA" "general" 0.5
        0.5).user_id = w.2.user_id) ∨
    (∃ p ∈ [("m1", Memory.mk "alpha beta" "userA" "team1" "" [] "general"
        "team" 0.5)], p.2.team_id = "team1" ∧
      (SearchResult.mk "m1" "alpha beta" [] "" "userA" "general" 0.5
        0.5).memory_id = p.1 ∧
      (SearchResult.mk "m1" "alpha beta" [] "" "userA" "general" 0.5
        0.5).content = p.2.content ∧
      (SearchResult.mk "m1" "alpha beta" [] "" "userA" "general" 0.5
        0.5).user_id = p.2.user_id) :=
  search_memories_team_isolated (fun _ _ => []) [] false
    [("m1", Memory.mk "alpha beta" "userA" "team1" "" [] "general" "team"
      0.5)] "alpha" "team1" 5 (fun _ _ pr h => absurd h (List.not_mem_nil pr))
    (fun w hw _ => absurd hw (List.not_mem_nil w))
    (SearchResult.mk "m1" "alpha beta" [] "" "userA" "general" 0.5 0.5)
    (by decide)

end MistralServer
